import Mathlib

/-!
Shallow embedding of the `approx-string-match-js` library (`src/index.ts`),
an implementation of Myers' bit-parallel approximate string matching
algorithm.  Strings are lists of character codes (`List Nat`, the values of
JavaScript `String.charCodeAt`); the 32-bit unsigned words held in the JS
`Uint32Array`s are naturals kept below `2 ^ 32`, and every arithmetic or
shift step that JS truncates is truncated here explicitly.
-/

namespace ApproxMatch

set_option maxRecDepth 1000000
set_option maxHeartbeats 4000000

/-- Truncation to a 32-bit unsigned word (JS coercion after `+` or `<<`). -/
def mask32 (x : Nat) : Nat := x % 2 ^ 32

/-- 32-bit bitwise complement (JS `~` applied to a word below `2 ^ 32`). -/
def not32 (x : Nat) : Nat := x ^^^ (2 ^ 32 - 1)

/-- JS `ToUint32` of a possibly negative exact integer, as performed when a
number is stored into a `Uint32Array` slot. -/
def toU32 (x : Int) : Nat := (x % (2 ^ 32 : Int)).toNat

/-- `Uint32Array` compound assignment `s += c` with an integer delta `c`. -/
def addWrap (s : Nat) (c : Int) : Nat := toU32 ((s : Int) + c)

/-- A match returned by `search`: the `start`/`end` offsets within the text
and the number of errors.  `start` is an `Int` because `findMatchEnds`
records the placeholder value `-1` before the start is resolved. -/
structure Match where
  start : Int
  «end» : Nat
  errors : Nat
deriving DecidableEq, Repr

/-- A candidate region of the text, `[start, end)`. -/
structure Region where
  start : Nat
  «end» : Nat
deriving DecidableEq, Repr

/-- The result of one `advanceBlock` call: the horizontal output delta and
the block's new `P` and `M` words (the JS function mutates `ctx.P[b]` and
`ctx.M[b]` and returns `hOut`). -/
structure BlockOut where
  hOut : Int
  pV : Nat
  mV : Nat
deriving DecidableEq, Repr

/-- `advanceBlock` from `src/index.ts`: the block calculation step (Fig. 8 of
Myers' paper).  Arguments are the block's current `P` and `M` words
(`ctx.P[b]`, `ctx.M[b]`), the profile word `peq[b]` for the current text
character, the block's last-row mask `ctx.lastRowMask[b]`, and the incoming
horizontal delta `hIn`. -/
def advanceBlock (pV mV eq0 lastRowMask : Nat) (hIn : Int) : BlockOut :=
  let xV := eq0 ||| mV
  let eq := if hIn < 0 then eq0 ||| 1 else eq0
  let xH := (mask32 ((eq &&& pV) + pV) ^^^ pV) ||| eq
  let pH := mV ||| not32 (xH ||| pV)
  let mH := pV &&& xH
  let hOut : Int :=
    if pH &&& lastRowMask ≠ 0 then 1 else if mH &&& lastRowMask ≠ 0 then -1 else 0
  let pH := mask32 (pH <<< 1)
  let mH := mask32 (mH <<< 1)
  let mH := if hIn < 0 then mH ||| 1 else mH
  let pH := if 0 < hIn then pH ||| 1 else pH
  { hOut := hOut, pV := mH ||| not32 (xV ||| pH), mV := pH &&& xV }

/-- Modelled from the spec, section 4.2 (the Block Transition pseudocode):
the same recurrence written directly from the spec's lines, to be compared
with `advanceBlock`, which is translated from the source. -/
def advanceBlockSpec (pV mV profileWord lastRowMask : Nat) (hIn : Int) : BlockOut :=
  let eq := if hIn < 0 then profileWord ||| 1 else profileWord
  let xV := profileWord ||| mV
  let xH := (mask32 ((eq &&& pV) + pV) ^^^ pV) ||| eq
  let pH0 := mV ||| not32 (xH ||| pV)
  let mH0 := pV &&& xH
  let hOut : Int :=
    if pH0 &&& lastRowMask ≠ 0 then 1 else if mH0 &&& lastRowMask ≠ 0 then -1 else 0
  let pH1 := mask32 (pH0 <<< 1)
  let mH1 := mask32 (mH0 <<< 1)
  let mH2 := if hIn < 0 then mH1 ||| 1 else mH1
  let pH2 := if 0 < hIn then pH1 ||| 1 else pH1
  { hOut := hOut, pV := mH2 ||| not32 (xV ||| pH2), mV := pH2 &&& xV }

/-- Point update of a function used to model a `Uint32Array` store. -/
def fupd (f : Nat → Nat) (i v : Nat) : Nat → Nat := fun j => if j = i then v else f j

/-- The profile word `ctx.peq.get(val)[b]` built by `findMatchEnds`: bit `r`
of block `b` is set iff pattern position `b * 32 + r` holds character `val`.
For a character absent from the pattern this yields `0`, which is exactly
the `emptyPeq` fallback word of the source. -/
def peqWord (pattern : List Nat) (val b : Nat) : Nat :=
  (List.range 32).foldl
    (fun acc r =>
      if pattern.get? (b * 32 + r) = some val then acc ||| (1 <<< r) else acc)
    0

/-- `ctx.lastRowMask` as a function of the block index: the array is filled
with `1 << 31` and its final entry (`bMax`) overwritten with
`1 << ((len - 1) % 32)`. -/
def lastRowMask (len bMax b : Nat) : Nat :=
  if b = bMax then 1 <<< ((len - 1) % 32) else 1 <<< 31

/-- The result of running `advanceBlock` over blocks `0..y` of one column:
the updated `P`, `M` and `score` arrays and the final carry. -/
structure BlocksOut where
  P : Nat → Nat
  M : Nat → Nat
  score : Nat → Nat
  carry : Int

/-- One iteration of the per-column block loop: advance block `b` with the
incoming carry, store the new `P`/`M` words and add the new carry to
`score[b]`. -/
def advanceOne (pq lr : Nat → Nat) (r : BlocksOut) (b : Nat) : BlocksOut :=
  let o := advanceBlock (r.P b) (r.M b) (pq b) (lr b) r.carry
  { P := fupd r.P b o.pV, M := fupd r.M b o.mV,
    score := fupd r.score b (addWrap (r.score b) o.hOut), carry := o.hOut }

/-- The loop `for b = 0..y { carry = advanceBlock(...); score[b] += carry }`
of `findMatchEnds` and `findMatchRegions`, starting from carry `0`. -/
def advanceBlocks (pq lr P M score : Nat → Nat) : Nat → BlocksOut
  | 0 => advanceOne pq lr ⟨P, M, score, 0⟩ 0
  | y + 1 => advanceOne pq lr (advanceBlocks pq lr P M score y) (y + 1)

/-- State threaded through the column scan of `findMatchEnds`: the bit
arrays, the per-block scores, the active window top `y`, the current
(possibly ratcheted) error threshold, and the accumulated matches. -/
structure EndsState where
  P : Nat → Nat
  M : Nat → Nat
  score : Nat → Nat
  y : Nat
  maxErrors : Nat
  «matches» : List Match

/-- The window-shrink loop `while (y > 0 && score[y] >= maxErrors + w) y--`,
with `limit = maxErrors + 32`. -/
def shrinkY (score : Nat → Nat) (limit : Nat) : Nat → Nat
  | 0 => 0
  | y + 1 => if limit ≤ score (y + 1) then shrinkY score limit y else y + 1

/-- The body of the `for j` loop of `findMatchEnds`: advance the active
blocks, expand or shrink the window, and record (and ratchet) a match when
the bottom score is within the threshold. -/
def scanColumn (text pattern : List Nat) (bMax : Nat) (s : EndsState) (j : Nat) :
    EndsState :=
  let pq : Nat → Nat := fun b =>
    match text.get? j with
    | some v => peqWord pattern v b
    | none => 0
  let lr := lastRowMask pattern.length bMax
  let r := advanceBlocks pq lr s.P s.M s.score s.y
  let s1 : EndsState :=
    if ((r.score s.y : Int) - r.carry ≤ (s.maxErrors : Int)) ∧ s.y < bMax ∧
        (pq (s.y + 1) &&& 1 ≠ 0 ∨ r.carry < 0) then
      let y := s.y + 1
      let maxBlockScore := if y = bMax then pattern.length % 32 else 32
      let o := advanceBlock (2 ^ 32 - 1) 0 (pq y) (lr y) r.carry
      { s with
        P := fupd r.P y o.pV,
        M := fupd r.M y o.mV,
        score := fupd r.score y
          (toU32 ((r.score s.y : Int) + maxBlockScore - r.carry + o.hOut)),
        y := y }
    else
      { s with
        P := r.P,
        M := r.M,
        score := r.score,
        y := shrinkY r.score (s.maxErrors + 32) s.y }
  if s1.y = bMax ∧ s1.score s1.y ≤ s1.maxErrors then
    { s1 with
      «matches» := (if s1.score s1.y < s1.maxErrors then [] else s1.«matches») ++
        [⟨-1, j + 1, s1.score s1.y⟩],
      maxErrors := s1.score s1.y }
  else s1

/-- The body of the `for r` region loop of `findMatchEnds`: reset `y`, the
scores and the vertical deltas of blocks `0..y` as at the start of the text,
then scan the region's columns.  The accumulated matches and the ratcheted
threshold persist across regions, as in the source. -/
def scanRegion (text pattern : List Nat) (bMax : Nat) (s : EndsState)
    (region : Region) : EndsState :=
  let y0 := (s.maxErrors + 31) / 32 - 1
  (List.range' region.start (region.«end» - region.start)).foldl
    (scanColumn text pattern bMax)
    { s with
      P := fun b => if b ≤ y0 then 2 ^ 32 - 1 else s.P b,
      M := fun b => if b ≤ y0 then 0 else s.M b,
      score := fun b =>
        if b = bMax then pattern.length
        else if b ≤ y0 then (b + 1) * 32 else s.score b,
      y := y0 }

/-- `findMatchEnds` from `src/index.ts`: find the ends and error counts of
matches of `pattern` in `text`, scanning only the given `regions` (the
default, as in the source, is the whole text). -/
def findMatchEnds (text pattern : List Nat) (maxErrors : Nat)
    (regions : List Region := [⟨0, text.length⟩]) : List Match :=
  if pattern.length = 0 then []
  else
    let k := min maxErrors pattern.length
    let bMax := (pattern.length + 31) / 32 - 1
    (regions.foldl (scanRegion text pattern bMax)
      { P := fun _ => 0, M := fun _ => 0, score := fun _ => 0,
        y := 0, maxErrors := k, «matches» := [] }).«matches»

/-- JS `text.slice(s, e)` on a list of character codes. -/
def slice (l : List Nat) (s e : Nat) : List Nat := (l.take e).drop s

/-- `findMatchStarts` from `src/index.ts`: resolve the start offset of each
match by running `findMatchEnds` on the reversed pattern and the reversed
matching segment of text, keeping the start that maximises the match
length. -/
def findMatchStarts (text pattern : List Nat) (ms : List Match) :
    List Match :=
  let patRev := pattern.reverse
  ms.map fun m =>
    let minStart := m.«end» - pattern.length - m.errors
    let textRev := (slice text minStart m.«end»).reverse
    let start := (findMatchEnds textRev patRev m.errors).foldl
      (fun mn rm =>
        if (m.«end» : Int) - (rm.«end» : Int) < mn then
          (m.«end» : Int) - (rm.«end» : Int)
        else mn)
      (m.«end» : Int)
    { start := start, «end» := m.«end», errors := m.errors }

/-- `search` from `src/index.ts` (the default export): find the lowest-cost
matches of `pattern` in `text` with up to `maxErrors` errors. -/
def search (text pattern : List Nat) (maxErrors : Nat) : List Match :=
  findMatchStarts text pattern (findMatchEnds text pattern maxErrors)

/-- The superimposed profile word built by `findMatchRegions` for a
character `val` occurring in the combined pattern: bit `r` of block `b` is
set iff some pattern either is no longer than position `b * 32 + r` or holds
`val` there, positions past the longest pattern excluded. -/
def msPeqWord (patterns : List (List Nat)) (maxLen val b : Nat) : Nat :=
  (List.range 32).foldl
    (fun acc r =>
      if b * 32 + r < maxLen ∧
          patterns.any
            (fun p => p.length ≤ b * 32 + r ∨ p.get? (b * 32 + r) = some val)
      then acc ||| (1 <<< r) else acc)
    0

/-- The `emptyPeq` fallback of `findMatchRegions` for characters absent from
every pattern: positions from the shortest pattern's length up to the
longest pattern's length always match. -/
def msEmptyPeq (minLen maxLen b : Nat) : Nat :=
  (List.range maxLen).foldl
    (fun acc i =>
      if minLen ≤ i ∧ i / 32 = b then acc ||| (1 <<< (i % 32)) else acc)
    0

/-- Region recording of `findMatchRegions`: if the new region's start is at
or before the previous region's end, extend the previous region's end,
otherwise push a new region. -/
def addRegion : List Region → Nat → Nat → List Region
  | [], s, e => [⟨s, e⟩]
  | [r0], s, e => if s ≤ r0.«end» then [⟨r0.start, e⟩] else [r0, ⟨s, e⟩]
  | r0 :: r1 :: rest, s, e => r0 :: addRegion (r1 :: rest) s e

/-- State threaded through the column scan of `findMatchRegions`. -/
structure RegionsState where
  P : Nat → Nat
  M : Nat → Nat
  score : Nat → Nat
  y : Nat
  regions : List Region

/-- The block-advance and window-adjustment part of the `for j` loop body of
`findMatchRegions` (identical in structure to `scanColumn`, with the longest
pattern's length in place of the pattern length and no ratchet). -/
def regionColumnCore (text : List Nat) (patterns : List (List Nat))
    (minLen maxLen bMax maxErrors : Nat) (s : RegionsState) (j : Nat) :
    RegionsState :=
  let pq : Nat → Nat := fun b =>
    match text.get? j with
    | some v =>
      if v ∈ patterns.flatten then msPeqWord patterns maxLen v b
      else msEmptyPeq minLen maxLen b
    | none => msEmptyPeq minLen maxLen b
  let lr := lastRowMask maxLen bMax
  let r := advanceBlocks pq lr s.P s.M s.score s.y
  if ((r.score s.y : Int) - r.carry ≤ (maxErrors : Int)) ∧ s.y < bMax ∧
      (pq (s.y + 1) &&& 1 ≠ 0 ∨ r.carry < 0) then
    let y := s.y + 1
    let maxBlockScore := if y = bMax then maxLen % 32 else 32
    let o := advanceBlock (2 ^ 32 - 1) 0 (pq y) (lr y) r.carry
    { s with
      P := fupd r.P y o.pV,
      M := fupd r.M y o.mV,
      score := fupd r.score y
        (toU32 ((r.score s.y : Int) + maxBlockScore - r.carry + o.hOut)),
      y := y }
  else
    { s with
      P := r.P,
      M := r.M,
      score := r.score,
      y := shrinkY r.score (maxErrors + 32) s.y }

/-- The region-recording tail of the `for j` loop body of
`findMatchRegions`. -/
def regionRecord (maxLen bMax maxErrors j : Nat) (s1 : RegionsState) :
    RegionsState :=
  if s1.y = bMax ∧ s1.score s1.y ≤ maxErrors then
    { s1 with
      regions := addRegion s1.regions (j + 1 - maxLen - s1.score s1.y) (j + 1) }
  else s1

/-- The full `for j` loop body of `findMatchRegions`. -/
def regionColumn (text : List Nat) (patterns : List (List Nat))
    (minLen maxLen bMax maxErrors : Nat) (s : RegionsState) (j : Nat) :
    RegionsState :=
  regionRecord maxLen bMax maxErrors j
    (regionColumnCore text patterns minLen maxLen bMax maxErrors s j)

/-- `findMatchRegions` from `src/index.ts`: find regions of the text which
may match one or more of `patterns` with up to `maxErrors` errors, using a
profile superimposing all the patterns. -/
def findMatchRegions (text : List Nat) (patterns : List (List Nat))
    (maxErrors : Nat) : List Region :=
  if patterns.length = 0 then []
  else
    let lens := patterns.map List.length
    let minPatternLen := lens.foldl min (lens.headD 0)
    let maxPatternLen := lens.foldl max (lens.headD 0)
    let k := min maxErrors maxPatternLen
    let bMax := (maxPatternLen + 31) / 32 - 1
    let y0 := (k + 31) / 32 - 1
    ((List.range text.length).foldl
      (regionColumn text patterns minPatternLen maxPatternLen bMax k)
      { P := fun b => if b ≤ y0 then 2 ^ 32 - 1 else 0,
        M := fun _ => 0,
        score := fun b =>
          if b = bMax then maxPatternLen
          else if b ≤ y0 then (b + 1) * 32 else 0,
        y := y0, regions := [] }).regions

/-- One entry of the `patterns` argument of `multiSearch`. -/
structure PatternConfig where
  pattern : List Nat
  maxErrors : Nat
deriving DecidableEq, Repr

/-- The result of `multiSearch`: the per-pattern match lists together with
the `regions` property attached to the returned array. -/
structure MultiSearchResult where
  «matches» : List (List Match)
  regions : List Region
deriving DecidableEq, Repr

/-- `multiSearch` from `src/index.ts`: search for matches of each pattern,
first flagging candidate regions with `findMatchRegions` under the maximum
requested error budget and then scanning only those regions per pattern. -/
def multiSearch (text : List Nat) (patterns : List PatternConfig) :
    MultiSearchResult :=
  let maxErrorCount := patterns.foldl (fun n p => max p.maxErrors n) 0
  let regions :=
    findMatchRegions text (patterns.map PatternConfig.pattern) maxErrorCount
  { «matches» := patterns.map fun pc =>
      findMatchStarts text pc.pattern
        (findMatchEnds text pc.pattern pc.maxErrors regions),
    regions := regions }

/-- Modelled from the spec, section 8: the brute-force dynamic-programming
reference for the unit-cost (insert/delete/substitute) edit distance, as a
row-by-row Wagner-Fischer table.  `edRowAux x ys prev diag left` computes
the tail of the next table row from the tail `prev` of the previous row, the
entry `diag` diagonally above-left and the entry `left` to the left. -/
def edRowAux (x : Nat) : List Nat → List Nat → Nat → Nat → List Nat
  | _, [], _, _ => []
  | [], _, _, _ => []
  | y :: ys, pj :: prest, diag, left =>
    let cur := min (pj + 1) (min (left + 1) (diag + (if x = y then 0 else 1)))
    cur :: edRowAux x ys prest pj cur

/-- One row step of the Wagner-Fischer table for `editDistance`. -/
def edRow (x : Nat) (ys : List Nat) (prev : List Nat) : List Nat :=
  match prev with
  | [] => []
  | p0 :: rest => (p0 + 1) :: edRowAux x ys rest p0 (p0 + 1)

/-- Modelled from the spec, section 8: the unit-cost edit distance between
`xs` and `ys` (the "brute-force dynamic-programming reference"). -/
def editDistance (xs ys : List Nat) : Nat :=
  (xs.foldl (fun row x => edRow x ys row) (List.range (ys.length + 1))).getLastD 0

/-- Concrete input: the pattern `"a".repeat(64)` (64 copies of code 97),
whose length is a multiple of the word size. -/
def aPat64 : List Nat := List.replicate 64 97

/-- Concrete input: the text `"a".repeat(32)`. -/
def aText32 : List Nat := List.replicate 32 97

/-- Concrete input: the text `"b"` (code 98). -/
def bText : List Nat := [98]

/-- Concrete input: the pattern configs `[{pattern: "aaaa", maxErrors: 0},
{pattern: "b", maxErrors: 0}]`. -/
def cfgAB : List PatternConfig := [⟨[97, 97, 97, 97], 0⟩, ⟨[98], 0⟩]

/-- The initial scan state built by `findMatchEnds aText32 aPat64 1`:
zeroed arrays and the already-clamped threshold `min 1 64 = 1`. -/
def endsInit1 : EndsState :=
  { P := fun _ => 0, M := fun _ => 0, score := fun _ => 0, y := 0,
    maxErrors := 1, «matches» := [] }

/-- A list slice of a replicated list is again replicated. -/
theorem slice_replicate (n a s e : Nat) :
    slice (List.replicate n a) s e = List.replicate (min e n - s) a := by
  simp [slice, List.take_replicate, List.drop_replicate]

/-- A fold preserves any invariant its step function preserves. -/
theorem foldl_inv {α β : Type} (f : β → α → β) (Inv : β → Prop)
    (step : ∀ b a, Inv b → Inv (f b a)) :
    ∀ (l : List α) (b : β), Inv b → Inv (l.foldl f b)
  | [], _, h => h
  | a :: l, b, h => foldl_inv f Inv step l (f b a) (step b a h)

/-- `addRegion` never changes the start offset of the head region. -/
theorem addRegion_head_start (r : Region) (rs : List Region) (s e : Nat) :
    ∃ x, (addRegion (r :: rs) s e).head? = some x ∧ x.start = r.start := by
  cases rs with
  | nil =>
    unfold addRegion
    split
    · exact ⟨⟨r.start, e⟩, rfl, rfl⟩
    · exact ⟨r, rfl, rfl⟩
  | cons r1 rest => exact ⟨r, rfl, rfl⟩

/-- `addRegion` keeps the region list strictly ordered: either it extends
the last region's end in place, or it pushes a region that starts strictly
after the last region's end. -/
theorem chain_addRegion :
    ∀ (rs : List Region) (s e : Nat),
      List.Chain' (fun a b => a.«end» < b.start) rs →
      List.Chain' (fun a b => a.«end» < b.start) (addRegion rs s e)
  | [], _, _, _ => List.chain'_singleton _
  | [r0], s, e, _ => by
    unfold addRegion
    split
    · exact List.chain'_singleton _
    · rename_i hle
      exact List.chain'_cons.mpr ⟨by show r0.«end» < s; omega, List.chain'_singleton _⟩
  | r0 :: r1 :: rest, s, e, h => by
    have hrec :
        addRegion (r0 :: r1 :: rest) s e = r0 :: addRegion (r1 :: rest) s e := rfl
    rw [hrec]
    rcases List.chain'_cons'.mp h with ⟨h1, h2⟩
    refine List.chain'_cons'.mpr ⟨?_, chain_addRegion (r1 :: rest) s e h2⟩
    intro x hx
    obtain ⟨x', hx', hs⟩ := addRegion_head_start r1 rest s e
    rw [hx'] at hx
    rw [← Option.mem_some_iff.mp hx, hs]
    exact h1 r1 rfl

/-- The block-advance phase of a `findMatchRegions` column leaves the
accumulated region list untouched. -/
theorem regionColumnCore_regions (text : List Nat) (patterns : List (List Nat))
    (minLen maxLen bMax k : Nat) (s : RegionsState) (j : Nat) :
    (regionColumnCore text patterns minLen maxLen bMax k s j).regions =
      s.regions := by
  simp only [regionColumnCore]
  split
  · rfl
  · rfl

/-- The region-recording phase of a `findMatchRegions` column preserves
strict ordering of the region list. -/
theorem regionRecord_chain (maxLen bMax k j : Nat) (s1 : RegionsState)
    (h : List.Chain' (fun a b => a.«end» < b.start) s1.regions) :
    List.Chain' (fun a b => a.«end» < b.start)
      (regionRecord maxLen bMax k j s1).regions := by
  unfold regionRecord
  split
  · exact chain_addRegion _ _ _ h
  · exact h

/-- A full `findMatchRegions` column preserves strict ordering of the
region list. -/
theorem regionColumn_chain (text : List Nat) (patterns : List (List Nat))
    (minLen maxLen bMax k : Nat) (s : RegionsState) (j : Nat)
    (h : List.Chain' (fun a b => a.«end» < b.start) s.regions) :
    List.Chain' (fun a b => a.«end» < b.start)
      (regionColumn text patterns minLen maxLen bMax k s j).regions := by
  unfold regionColumn
  exact regionRecord_chain _ _ _ _ _
    ((regionColumnCore_regions text patterns minLen maxLen bMax k s j).symm ▸ h)

/-- Folding `regionColumn` over any column list preserves strict ordering
of the region list. -/
theorem foldl_regionColumn_chain (text : List Nat) (patterns : List (List Nat))
    (minLen maxLen bMax k : Nat) (l : List Nat) (s : RegionsState)
    (h : List.Chain' (fun a b => a.«end» < b.start) s.regions) :
    List.Chain' (fun a b => a.«end» < b.start)
      (l.foldl (regionColumn text patterns minLen maxLen bMax k) s).regions :=
  foldl_inv (regionColumn text patterns minLen maxLen bMax k)
    (fun st => List.Chain' (fun a b => a.«end» < b.start) st.regions)
    (fun st j hh => regionColumn_chain text patterns minLen maxLen bMax k st j hh)
    l s h

/-- Every region list returned by `findMatchRegions` is strictly ordered:
each region ends strictly before the next one starts. -/
theorem findMatchRegions_chain (text : List Nat) (patterns : List (List Nat))
    (k : Nat) :
    List.Chain' (fun a b => a.«end» < b.start)
      (findMatchRegions text patterns k) := by
  unfold findMatchRegions
  split
  · exact List.chain'_nil
  · exact foldl_regionColumn_chain _ _ _ _ _ _ _ _ List.chain'_nil

/-- Claim C1: the spec demands that every match returned by `search` carry
an error count equal to the true unit-cost edit distance between the pattern
and the matched text slice.  The code violates this: with text `"a" * 32`,
pattern `"a" * 64` and budget `1` it returns the match `[32, 32)` with `0`
errors, although the edit distance between the pattern and that (empty)
slice is `64`. -/
theorem claim1_errors_not_edit_distance :
    search aText32 aPat64 1 = [⟨32, 32, 0⟩] ∧
      editDistance aPat64 (slice aText32 32 32) = 64 := by
  constructor
  · decide
  · decide

/-- Claim C2: the spec demands that every match end found by a per-pattern
`search` lie inside one of the regions `multiSearch` returns for the same
inputs.  The code violates this: on text `"b"` with patterns
`{"aaaa", 0}` and `{"b", 0}`, `search` finds the match of `"b"` ending at
offset `1`, but `multiSearch` returns no regions at all. -/
theorem claim2_region_misses_match_end :
    search bText [98] 0 = [⟨0, 1, 0⟩] ∧ (multiSearch bText cfgAB).regions = [] := by
  constructor
  · decide
  · decide

/-- Claim C3: the spec says the score of a freshly activated block `y` is
`score[y-1] + blockWidth - carry + hOut` with `blockWidth = 32` when
`patternLength mod 32 = 0`.  The code instead uses
`patternLength mod 32 = 0` itself as the width: scanning `"a" * 32` for
`"a" * 64` with budget `1`, the final block's score ends at `0` (the
claim's formula gives `32`), which makes `findMatchEnds` report a bogus
zero-error match end. -/
theorem claim3_final_block_width_zero :
    (scanRegion aText32 aPat64 1 endsInit1 ⟨0, 32⟩).score 1 = 0 ∧
      findMatchEnds aText32 aPat64 1 = [⟨-1, 32, 0⟩] := by
  constructor
  · decide
  · decide

/-- Claim C4: the spec demands that, when the final output is nonempty,
every reported match carry the globally minimal achievable error count.
The code violates this: with text `"a" * 32`, pattern `"a" * 64` and budget
`1` it outputs a match with `0` errors although every slice of the text is
at edit distance greater than `1` (in fact at least `32`) from the
pattern. -/
theorem claim4_output_not_globally_minimal :
    search aText32 aPat64 1 = [⟨32, 32, 0⟩] ∧
      ∀ s e : Nat, 1 < editDistance aPat64 (slice aText32 s e) := by
  constructor
  · decide
  · intro s e
    have h : ∀ L : Fin 33, 1 < editDistance aPat64 (List.replicate L.val 97) := by
      decide
    rw [show aText32 = List.replicate 32 97 from rfl, slice_replicate]
    exact h ⟨min e 32 - s, by omega⟩

/-- Claim C5: `advanceBlock` computes exactly the word-parallel recurrence
of spec section 4.2 (with 32-bit wraparound, the low-bit injection for
`hIn < 0`, the post-test shifts, and the stated `hOut` rule), here stated
as pointwise equality with `advanceBlockSpec`, which is transcribed from
the spec's pseudocode. -/
theorem claim5_advanceBlock_matches_spec :
    ∀ (pV mV profileWord lrMask : Nat) (hIn : Int),
      advanceBlock pV mV profileWord lrMask hIn =
        advanceBlockSpec pV mV profileWord lrMask hIn :=
  fun _ _ _ _ _ => rfl

/-- Claim C6: the spec demands that `search(T, P, 0)` return exactly the
literal occurrences of `P` in `T`.  The code violates this: with
`T = P = "a" * 64` the pattern occurs literally at `[0, 64)`, yet
`search` returns no matches. -/
theorem claim6_exact_match_missed :
    search aPat64 aPat64 0 = [] ∧ slice aPat64 0 64 = aPat64 := by
  constructor
  · decide
  · decide

/-- Claim C7: a budget exceeding the pattern length is silently clamped:
`search(T, P, k)` returns the same matches as
`search(T, P, min(k, len(P)))`. -/
theorem claim7_budget_clamped :
    ∀ (text pattern : List Nat) (k : Nat),
      search text pattern k = search text pattern (min k pattern.length) := by
  intro t p k
  have h : findMatchEnds t p k = findMatchEnds t p (min k p.length) := by
    unfold findMatchEnds
    rw [min_assoc, min_self]
  simp only [search, h]

/-- Claim C8: searching an empty text, or searching for an empty pattern,
yields no matches (for every pattern, text and budget, covering in
particular `search("", "foo", 0) = []` and `search("foo", "", 0) = []`). -/
theorem claim8_empty_text_or_pattern :
    (∀ (pattern : List Nat) (k : Nat), search [] pattern k = []) ∧
      (∀ (text : List Nat) (k : Nat), search text [] k = []) := by
  constructor
  · intro p k
    by_cases hp : p.length = 0
    · unfold search findMatchEnds
      rw [if_pos hp]
      rfl
    · unfold search findMatchEnds
      rw [if_neg hp]
      rfl
  · intro t k
    rfl

/-- Claim C9: the region list attached to a `multiSearch` result is merged,
non-overlapping and strictly increasing: every region ends strictly before
the next one starts. -/
theorem claim9_regions_sorted (text : List Nat) (cfgs : List PatternConfig) :
    List.Chain' (fun a b => a.«end» < b.start) (multiSearch text cfgs).regions :=
  findMatchRegions_chain text (cfgs.map PatternConfig.pattern)
    (cfgs.foldl (fun n (p : PatternConfig) => max p.maxErrors n) 0)

/-- Claim C10: `multiSearch` with an empty pattern-config list returns an
empty list of per-pattern match lists whose attached `regions` property is
the empty list. -/
theorem claim10_multiSearch_no_patterns (text : List Nat) :
    multiSearch text [] = ⟨[], []⟩ :=
  rfl

end ApproxMatch
